import Mathlib

/-!
Verification of the d3_svg_network renderer (src/d3_svg_network/__init__.py).

The Python module is shallowly embedded: machine floats become exact
rationals, the lxml element tree becomes explicit records and lists, and
attribute stores become lookup functions into an inductive value type.
Each definition is translated from the named source function; the few
definitions that model features referenced only by the tests and examples
(the module itself does not contain them) carry a doc comment starting
with the words Modelled from the spec.
-/

namespace D3SvgNetwork

/-- A Python attribute value as the renderer consumes it: a string, a
number, a boolean, or the Python None object.  Absence of an attribute is
represented one level up, by `Option`. -/
inductive PyVal where
  | str (s : String)
  | num (q : ℚ)
  | bool (b : Bool)
  | none
deriving DecidableEq

/-- Translated from `_attr_lookup` (source lines 86-94): probe candidate
keys in order; a missing key (KeyError) or a present-but-None value falls
through to the next candidate; the default result is None, rendered here
as `Option.none`. -/
def attrLookup (get : String → Option PyVal) : List String → Option PyVal
  | [] => Option.none
  | c :: rest =>
    match get c with
    | Option.some v => if v = PyVal.none then attrLookup get rest else Option.some v
    | Option.none => attrLookup get rest

/-- Python truthiness of an optional attribute value, as used by the
source in expressions such as `if not label_text` and `color or default`. -/
def truthy : Option PyVal → Bool
  | Option.none => false
  | Option.some v =>
    match v with
    | PyVal.str s => !(s == "")
    | PyVal.num q => !(q == 0)
    | PyVal.bool b => b
    | PyVal.none => false

/-- Squared Euclidean distance between the two endpoint positions, the
quantity whose square root `_directed_arc_path` (source lines 592-605)
computes as `dist`. -/
def edgeDistSq (s t : ℚ × ℚ) : ℚ :=
  (t.1 - s.1) ^ 2 + (t.2 - s.2) ^ 2

/-- The real number `d` is the Euclidean distance between `s` and `t`.
The source computes it as `(dx ** 2 + dy ** 2) ** 0.5`; since a square
root is generally irrational we characterise it by its square. -/
def IsDist (s t : ℚ × ℚ) (d : ℚ) : Prop :=
  0 ≤ d ∧ d ^ 2 = edgeDistSq s t

/-- Translated from `_directed_arc_path` (source lines 592-605): the
emitted elliptical-arc radius is `max(dist * factor, 1.0)` after flooring
the configured curve factor at `0.51`. -/
def arcRadiusOfDist (dist factor : ℚ) : ℚ :=
  max (dist * max factor (51 / 100)) 1

/-- Modelled from the spec: the method `use_edge_attribute_for_curve_radius`
is absent from the module under src (only the tests and the curved example
call it).  Per the spec, "An edge-level override attribute may supply the
radius directly, bypassing the distance-based formula"; an edge without
the override keeps the distance-based radius of `_directed_arc_path`. -/
def curveRadius (override : Option ℚ) (dist factor : ℚ) : ℚ :=
  match override with
  | Option.some r => r
  | Option.none => arcRadiusOfDist dist factor

/-- Hexadecimal digit value of one character, as `int(-, 16)` assigns it
inside `_hex_components` (source lines 62-75). -/
def hexDigit (c : Char) : Option ℕ :=
  if '0' ≤ c ∧ c ≤ '9' then Option.some (c.toNat - 48)
  else if 'a' ≤ c ∧ c ≤ 'f' then Option.some (c.toNat - 87)
  else if 'A' ≤ c ∧ c ≤ 'F' then Option.some (c.toNat - 55)
  else Option.none

/-- Leading and trailing whitespace removal on a character list, the
`str.strip()` step of `_hex_components`. -/
def stripChars (cs : List Char) : List Char :=
  ((cs.dropWhile Char.isWhitespace).reverse.dropWhile Char.isWhitespace).reverse

/-- Translated from `_hex_components` (source lines 62-75): strip the
string, drop a leading hash sign, double each character of a 3-digit
form, then parse exactly six hex digits into the three RGB components;
any other shape yields None. -/
def hexComponents (color : String) : Option (ℕ × ℕ × ℕ) :=
  let cs0 := stripChars color.data
  let cs1 := match cs0 with
    | '#' :: rest => rest
    | _ => cs0
  let cs2 := if cs1.length = 3 then cs1.flatMap (fun c => [c, c]) else cs1
  match cs2 with
  | [r1, r2, g1, g2, b1, b2] =>
    match hexDigit r1, hexDigit r2, hexDigit g1, hexDigit g2, hexDigit b1, hexDigit b2 with
    | Option.some a, Option.some b, Option.some c, Option.some d, Option.some e, Option.some f =>
      Option.some (16 * a + b, 16 * c + d, 16 * e + f)
    | _, _, _, _, _, _ => Option.none
  | _ => Option.none

/-- Lowercase hexadecimal digit character for a value below 16. -/
def hexChar (n : ℕ) : Char :=
  if n < 10 then Char.ofNat (48 + n) else Char.ofNat (87 + n)

/-- Two lowercase hex digits for a byte value, the `%02x` conversion used
by the color formatting in the source. -/
def hexByte (n : ℕ) : List Char :=
  [hexChar (n / 16), hexChar (n % 16)]

/-- The `"#%02x%02x%02x"` color formatting of the source applied to three
byte components. -/
def formatHexColor (r g b : ℕ) : String :=
  String.mk ('#' :: (hexByte r ++ hexByte g ++ hexByte b))

/-- Modelled from the spec: the method `enable_edge_average_color` is
absent from the module under src (only the tests and the curved example
call it).  Per the spec, the channel midpoint is the average of the two
hex components, rounded; rounding is modelled as round half up on the
exact midpoint. -/
def midChannel (a b : ℕ) : ℕ :=
  (a + b + 1) / 2

/-- Modelled from the spec: average-color mode "sets each edge stroke to
the per-channel midpoint of its endpoints node colors (hex RGB components
averaged and rounded, formatted back as #rrggbb)".  The hex parsing and
formatting reuse the machinery that is present in the source
(`_hex_components` and the `%02x` pattern of `_darker_hex`). -/
def averageColor (c1 c2 : String) : Option String :=
  match hexComponents c1, hexComponents c2 with
  | Option.some (r1, g1, b1), Option.some (r2, g2, b2) =>
    Option.some (formatHexColor (midChannel r1 r2) (midChannel g1 g2) (midChannel b1 b2))
  | _, _ => Option.none

/-- Modelled from the spec: the stroke assigned to an edge by average-color
mode; when either endpoint color fails to parse the previously resolved
stroke is kept. -/
def applyAverageColorMode (srcFill tgtFill : String) (stroke0 : PyVal) : PyVal :=
  match averageColor srcFill tgtFill with
  | Option.some c => PyVal.str c
  | Option.none => stroke0

/-- Most-significant-first decimal digit characters of a natural number;
`fuel` dominates the recursion and is kept at least `n + 1` by `natRepr`. -/
def natReprAux : ℕ → ℕ → List Char
  | 0, _ => []
  | fuel + 1, n =>
    if n < 10 then [Nat.digitChar n]
    else natReprAux fuel (n / 10) ++ [Nat.digitChar (n % 10)]

/-- Decimal string of a natural number, the `str(n)` conversion Python
performs when building the per-edge gradient id. -/
def natRepr (n : ℕ) : String :=
  String.mk (natReprAux (n + 1) n)

/-- Decimal value of a most-significant-first digit-character list; used
only to prove `natRepr` injective. -/
def decDigits (cs : List Char) : ℕ :=
  cs.foldl (fun acc c => acc * 10 + (c.toNat - 48)) 0

/-- Modelled from the spec: gradient mode keys each per-edge linear
gradient by "a unique id (edge-gradient-n)". -/
def gradientId (n : ℕ) : String :=
  "edge-gradient-" ++ natRepr n

/-- A linear gradient definition as gradient mode emits it: its id, its
gradientUnits attribute, and its stop colors in document order. -/
structure GradientDef where
  id : String
  gradientUnits : String
  stops : List String
deriving DecidableEq

/-- Modelled from the spec: the linear gradient defined for edge number
`n`, "anchored in the document coordinate space" via
gradientUnits=userSpaceOnUse "with two stops at the endpoints node colors
in source to target order". -/
def edgeGradient (n : ℕ) (srcColor tgtColor : String) : GradientDef :=
  { id := gradientId n, gradientUnits := "userSpaceOnUse", stops := [srcColor, tgtColor] }

/-- Modelled from the spec: the method `enable_edge_color_gradient` is
absent from the module under src (only the tests and the curved example
call it).  For each edge, taken with its index and its pair of endpoint
node colors, the mode emits one gradient definition and "points the edge
stroke at that gradient via a URL reference". -/
def applyGradientMode (edgeColors : List (String × String)) : List (GradientDef × String) :=
  edgeColors.enum.map (fun p => (edgeGradient p.1 p.2.1 p.2.2, "url(#" ++ gradientId p.1 ++ ")"))

/-- An element of the drawing tree: its tag, its attribute list in
document order, and its text content. -/
structure El where
  tag : String
  attrs : List (String × String)
  text : String
deriving DecidableEq

/-- Translated from `_normalize_attr_name` (source lines 42-44): pythonic
underscores become hyphens.  The source replaces the one-character
substring with `str.replace`; on characters the two agree. -/
def normalizeAttrName (name : String) : String :=
  String.mk (name.data.map (fun c => if c = '_' then '-' else c))

/-- Translated from `MiniD3SVG.add_style` (source lines 285-292): build a
style element whose only attribute is `type=text/css`, set its text to the
css, and insert it at position 0 of the root children. -/
def addStyle (root : List El) (cssText : String) : List El :=
  { tag := "style", attrs := [("type", "text/css")], text := cssText } :: root

/-- Translated from `NetworkSVG.set_text_style` (source lines 393-402):
join the non-None properties into one declaration string, and unless the
property list or the declaration string is empty, hand
`selector { declarations; }` to `add_style`, which always inserts a fresh
style element. -/
def setTextStyle (root : List El) (selector : String)
    (properties : List (String × Option String)) : List El :=
  if properties = [] then root
  else
    let decls := properties.filterMap
      (fun p => p.2.map (fun v => normalizeAttrName p.1 ++ ": " ++ v))
    if decls = [] then root
    else addStyle root (selector ++ " \x7b" ++ String.intercalate "; " decls ++ ";\x7d")

/-- The margin argument of the renderer: a scalar, a 2-tuple, a 4-tuple,
or anything else. -/
inductive MarginSpec where
  | scalar (v : ℚ)
  | two (hx hy : ℚ)
  | four (left right top bottom : ℚ)
  | other

/-- Translated from `NetworkSVG._normalize_margin` (source lines 446-469):
a scalar fills all four sides, a 2-tuple is (horizontal, vertical), a
4-tuple is explicit left/right/top/bottom, and any other shape falls back
to a uniform margin of 20. -/
def normalizeMargin : MarginSpec → ℚ × ℚ × ℚ × ℚ
  | MarginSpec.scalar v => (v, v, v, v)
  | MarginSpec.two hx hy => (hx, hx, hy, hy)
  | MarginSpec.four l r t b => (l, r, t, b)
  | MarginSpec.other => (20, 20, 20, 20)

/-- Translated from `NetworkSVG._fit_positions` (source lines 471-493):
with fit-to-view off the positions pass through; otherwise each available
extent is floored at 1, the coordinate spans are floored at `1e-9`, one
uniform scale factor `min(availW / spanX, availH / spanY)` is applied, and
the scaled bounding box is centered by per-axis offsets.  The source
raises on an empty position list (`min` of an empty sequence), rendered
here as `Option.none`. -/
def fitPositions (fitToView : Bool) (width height : ℚ) (margin : ℚ × ℚ × ℚ × ℚ)
    (positions : List (ℚ × ℚ)) : Option (List (ℚ × ℚ)) :=
  if fitToView = false then Option.some positions else
  match positions with
  | [] => Option.none
  | p :: rest =>
    let left := margin.1
    let right := margin.2.1
    let top := margin.2.2.1
    let bottom := margin.2.2.2
    let availW := max (width - left - right) 1
    let availH := max (height - top - bottom) 1
    let minX := (rest.map Prod.fst).foldl min p.1
    let maxX := (rest.map Prod.fst).foldl max p.1
    let minY := (rest.map Prod.snd).foldl min p.2
    let maxY := (rest.map Prod.snd).foldl max p.2
    let spanX := max (maxX - minX) (1 / 1000000000)
    let spanY := max (maxY - minY) (1 / 1000000000)
    let scale := min (availW / spanX) (availH / spanY)
    let usedW := spanX * scale
    let usedH := spanY * scale
    let extraX := max (availW - usedW) 0 / 2
    let extraY := max (availH - usedH) 0 / 2
    let offsetX := left + extraX - minX * scale
    let offsetY := top + extraY - minY * scale
    Option.some ((p :: rest).map (fun q => (q.1 * scale + offsetX, q.2 * scale + offsetY)))

/-- First value stored under an attribute name, the lookup both
`el.get(name)` and the style-element queries perform. -/
def lookupAttr : List (String × String) → String → Option String
  | [], _ => Option.none
  | p :: t, k => if p.1 = k then Option.some p.2 else lookupAttr t k

/-- The `el.get(name)` read of the element tree. -/
def getAttr (e : El) (k : String) : Option String :=
  lookupAttr e.attrs k

/-- The `el.set(name, value)` write of the element tree: replace the value
in place when the name is present, else append the pair. -/
def setAttr (e : El) (k v : String) : El :=
  if e.attrs.any (fun p => decide (p.1 = k)) then
    { e with attrs := e.attrs.map (fun p => if p.1 = k then (p.1, v) else p) }
  else
    { e with attrs := e.attrs ++ [(k, v)] }

/-- The `el.attrib.pop(name, None)` removal of the element tree. -/
def removeAttr (e : El) (k : String) : El :=
  { e with attrs := e.attrs.filter (fun p => !(decide (p.1 = k))) }

/-- Whether an attribute name starts with the letters stroke, the
`attr.startswith("stroke")` test of the source. -/
def strokeKey (k : String) : Bool :=
  "stroke".data.isPrefixOf k.data

/-- Whether a value of the stroke-width attribute names zero, the
`float(stroke_width) == 0.0` test of the source: the result is None when
the string is not a plain decimal literal, else tells whether every digit
is a zero, which for a decimal literal is equivalent to the parsed value
being zero.  Python float also accepts exponent and infinity forms; the
attribute values this library writes are plain decimals. -/
def isZeroDecimal (s : String) : Option Bool :=
  let cs0 := s.data
  let cs := match cs0 with
    | '-' :: rest => rest
    | '+' :: rest => rest
    | _ => cs0
  let intPart := cs.takeWhile Char.isDigit
  let rest := cs.dropWhile Char.isDigit
  match rest with
  | [] =>
    if intPart.isEmpty then Option.none
    else Option.some (intPart.all (fun c => c == '0'))
  | '.' :: frac =>
    if frac.all Char.isDigit && !(intPart.isEmpty && frac.isEmpty) then
      Option.some (intPart.all (fun c => c == '0') && frac.all (fun c => c == '0'))
    else Option.none
  | _ => Option.none

/-- Translated from `_prepare_label_strokes_for_illustrator` (source lines
830-860): a text node is skipped when its stroke-width attribute is
present, parses as a float, and that float equals zero; a parse failure
(ValueError) is passed over and the node still duplicated. -/
def strokeZero (e : El) : Bool :=
  match getAttr e "stroke-width" with
  | Option.none => false
  | Option.some w => (isZeroDecimal w).getD false

/-- A child of a label group is duplicated exactly when it is a text node
whose stroke attribute is present and non-empty and whose stroke-width is
not a decimal zero (source lines 839-850). -/
def shouldSplit (e : El) : Bool :=
  (e.tag == "text") &&
  (match getAttr e "stroke" with
    | Option.none => false
    | Option.some s => !(s == "")) &&
  !(strokeZero e)

/-- The stroke-only background copy of a styled text node: a deep copy
with fill set to none and paint-order dropped; the stroke attributes it
already carries are re-set from the original, which leaves them unchanged
(source lines 851-857). -/
def mkBg (e : El) : El :=
  removeAttr (setAttr e "fill" "none") "paint-order"

/-- The foreground text node after the transform: every attribute whose
name starts with stroke is deleted, and paint-order is popped (source
lines 855-859). -/
def stripStroke (e : El) : El :=
  let kept := (e.attrs.filter (fun p => !(strokeKey p.1))).filter
    (fun p => !(decide (p.1 = "paint-order")))
  { e with attrs := kept }

/-- Translated from the per-group loop of
`_prepare_label_strokes_for_illustrator`: the loop walks a snapshot of the
text children and inserts each background copy immediately before its
original, so on a group of pairwise distinct children the resulting child
list replaces every styled text node by the pair (background, stripped
original) and keeps everything else in place. -/
def prepareLabelGroup (children : List El) : List El :=
  children.flatMap (fun c => if shouldSplit c then [mkBg c, stripStroke c] else [c])

/-- The text children of a label group, in document order. -/
def textChildren (children : List El) : List El :=
  children.filter (fun c => c.tag == "text")

/-- A concrete text node shaped like the ones `_create_label_element`
emits, used to instantiate the Illustrator-transform theorem. -/
def sampleLabelText : El :=
  { tag := "text",
    attrs := [("text-anchor", "middle"), ("dy", "0.35em"), ("fill", "#ffffff"),
      ("stroke", "#0c2b42"), ("stroke-width", "2.0"), ("paint-order", "stroke fill")],
    text := "N0" }

/-- Sort key order on the optional per-element attribute value: the source
sorts by the tuple `(value is None, value)`, so present values come first
in value order and elements with a missing value form one final group. -/
def optLe (a b : Option ℤ) : Bool :=
  match a, b with
  | Option.none, Option.none => true
  | Option.none, Option.some _ => false
  | Option.some _, Option.none => true
  | Option.some x, Option.some y => decide (x ≤ y)

/-- The comparison `_sort_layer` hands to the stable sort in its key-based
branch (source lines 707-720); `reverse=True` flips the comparisons while
the sort stays stable, which is how the Python sort behaves. -/
def layerLe {α : Type} (key : α → Option ℤ) (reverse : Bool) (a b : α) : Bool :=
  if reverse then optLe (key b) (key a) else optLe (key a) (key b)

/-- Translated from `_sort_layer` (source lines 689-726), key branch: the
elements are stably sorted by the derived key; the bound data travel with
the elements, and the selection is overwritten with the new order. -/
def sortLayer {α : Type} (elements : List α) (key : α → Option ℤ) (reverse : Bool) : List α :=
  elements.mergeSort (layerLe key reverse)

/-- The comparison `_sort_layer` hands to the stable sort in its
comparator branch, after `cmp_to_key` (source lines 704-706). -/
def cmpLe {α : Type} (cmp : α → α → ℤ) (reverse : Bool) (a b : α) : Bool :=
  if reverse then decide (cmp b a ≤ 0) else decide (cmp a b ≤ 0)

/-- Translated from `_sort_layer` (source lines 689-726), comparator
branch. -/
def sortLayerCmp {α : Type} (elements : List α) (cmp : α → α → ℤ) (reverse : Bool) : List α :=
  elements.mergeSort (cmpLe cmp reverse)

/-- The graph as the renderer consumes it: a vertex count, an edge list of
endpoint indices, and a per-vertex named attribute store. -/
structure NetGraph where
  vcount : ℕ
  edges : List (ℕ × ℕ)
  vattr : ℕ → String → Option PyVal

/-- Translated from `_create_label_element` (source lines 631-637): the
label text comes from the first of Label, label, name; the show-label
flag from ShowLabel or show_label; a vertex whose show-label value is the
boolean False, or whose label text is falsy, gets no label element.  The
element is rendered here as the vertex index it is built for. -/
def createLabelElement (g : NetGraph) (i : ℕ) : Option ℕ :=
  let labelText := attrLookup (g.vattr i) ["Label", "label", "name"]
  let showLabel := attrLookup (g.vattr i) ["ShowLabel", "show_label"]
  if showLabel = Option.some (PyVal.bool false) then Option.none
  else if truthy labelText = false then Option.none
  else Option.some i

/-- Translated from `_build_edges` (source lines 496-505): one element is
created per graph edge, unconditionally. -/
def buildEdges (g : NetGraph) : List (ℕ × ℕ) :=
  g.edges.map (fun e => e)

/-- Translated from `_build_nodes` (source lines 507-516): one element is
created per vertex, unconditionally. -/
def buildNodes (g : NetGraph) : List ℕ :=
  (List.range g.vcount).map (fun i => i)

/-- Translated from `_build_labels` (source lines 518-530): the label
elements are the non-None results of `_create_label_element` over the
vertices in order. -/
def buildLabels (g : NetGraph) : List ℕ :=
  (List.range g.vcount).filterMap (createLabelElement g)

/-- The label condition as the claim words it: the vertex has a non-empty
(truthy) label text attribute and its show-label attribute, if present, is
not explicitly the boolean False.  Stated separately from
`createLabelElement` so the theorem compares the source behavior against
the claim wording. -/
def specShowsLabel (g : NetGraph) (i : ℕ) : Bool :=
  truthy (attrLookup (g.vattr i) ["Label", "label", "name"]) &&
  !(decide (attrLookup (g.vattr i) ["ShowLabel", "show_label"]
      = Option.some (PyVal.bool false)))

/-- The ordinal scale state: a growable domain and a fixed range list
(source lines 798-819). -/
structure OrdinalScale where
  domain : List ℤ
  range : List String
deriving DecidableEq

/-- Translated from `OrdinalScale.__call__` (source lines 813-819): an
unseen input is first appended to the domain; only then is the range
checked, raising on an empty range; otherwise the result is the range item
at the domain index of the input modulo the range length. -/
def ordinalCall (s : OrdinalScale) (v : ℤ) : OrdinalScale × Except String String :=
  let s1 := if v ∈ s.domain then s else { s with domain := s.domain ++ [v] }
  if s1.range = [] then
    (s1, Except.error "OrdinalScale requires a non-empty range list")
  else
    (s1, Except.ok (s1.range.getD (s1.domain.indexOf v % s1.range.length) ""))

theorem digitChar_toNat_sub (d : ℕ) (h : d < 10) : (Nat.digitChar d).toNat - 48 = d := by
interval_cases d <;> rfl

theorem decDigits_append (cs : List Char) (c : Char) :
    decDigits (cs ++ [c]) = 10 * decDigits cs + (c.toNat - 48) := by
unfold decDigits
rw [List.foldl_append]
simp [List.foldl]
omega

theorem natReprAux_decDigits : ∀ fuel n, n < fuel → decDigits (natReprAux fuel n) = n := by
intro fuel
induction fuel with
| zero => intro n h; omega
| succ f ih =>
  intro n h
  by_cases h10 : n < 10
  · unfold natReprAux
    rw [if_pos h10]
    unfold decDigits
    simp [List.foldl]
    exact digitChar_toNat_sub n h10
  · have hdiv : n / 10 < f := by
      have h1 : n / 10 < n := Nat.div_lt_self (by omega) (by omega)
      omega
    unfold natReprAux
    rw [if_neg h10, decDigits_append, ih (n / 10) hdiv,
      digitChar_toNat_sub (n % 10) (Nat.mod_lt n (by omega))]
    omega

theorem natRepr_injective : Function.Injective natRepr := by
intro a b h
have hd : natReprAux (a + 1) a = natReprAux (b + 1) b := congrArg String.data h
have ha := natReprAux_decDigits (a + 1) a (by omega)
have hb := natReprAux_decDigits (b + 1) b (by omega)
rw [hd] at ha
omega

theorem gradientId_injective : Function.Injective gradientId := by
intro a b h
have hd : ("edge-gradient-" ++ natRepr a).data = ("edge-gradient-" ++ natRepr b).data :=
  congrArg String.data h
rw [String.data_append, String.data_append] at hd
exact natRepr_injective (String.ext (List.append_cancel_left hd))

/-- Claim C1, code-bug evidence: for the failing input of the repository
test (endpoints (0,0) and (100,0), directed_curve_factor 2.0), the
distance is 100 and the radius the source formula `_directed_arc_path`
emits is `max(100 * max(2.0, 0.51), 1.0) = 200`, not the 50.0 the claim
and the test `test_directed_curve_radius_matches_gephi_default` expect. -/
theorem c1_arc_radius_failing_input :
    IsDist (0, 0) (100, 0) 100 ∧ arcRadiusOfDist 100 2 = 200 ∧ ¬ arcRadiusOfDist 100 2 = 50 := by
refine ⟨⟨by norm_num, by norm_num [edgeDistSq]⟩, ?_, ?_⟩ <;>
  norm_num [arcRadiusOfDist, max_def]

/-- Claim C2: under the (spec-modelled) radius override, every edge
carrying an override value gets exactly that value as its arc radius,
regardless of the endpoint distance and the configured factor — in
particular the value 120.0 of the claim — while an edge without an
override keeps the distance-based radius of the source formula. -/
theorem c2_curve_radius_override (r dist factor : ℚ) :
    curveRadius (Option.some r) dist factor = r ∧
    curveRadius (Option.some 120) dist factor = 120 ∧
    curveRadius Option.none dist factor = arcRadiusOfDist dist factor :=
⟨rfl, rfl, rfl⟩

/-- Claim C3: with average-color mode (spec-modelled) enabled, an edge
whose endpoint fills both parse as hex colors gets as stroke the
per-channel rounded midpoint formatted back as a hex color; in particular
endpoint colors #000000 and #ffffff yield exactly #808080. -/
theorem c3_average_color (c1 c2 : String) (stroke0 : PyVal) (r1 g1 b1 r2 g2 b2 : ℕ)
    (h1 : hexComponents c1 = Option.some (r1, g1, b1))
    (h2 : hexComponents c2 = Option.some (r2, g2, b2)) :
    applyAverageColorMode c1 c2 stroke0
      = PyVal.str (formatHexColor (midChannel r1 r2) (midChannel g1 g2) (midChannel b1 b2)) ∧
    applyAverageColorMode "#000000" "#ffffff" stroke0 = PyVal.str "#808080" := by
constructor
· simp [applyAverageColorMode, averageColor, h1, h2]
· have h3 : averageColor "#000000" "#ffffff" = Option.some "#808080" := by decide
  simp [applyAverageColorMode, h3]

/-- Witness for C3 at the concrete colors of the claim. -/
theorem c3_average_color_witness :
    applyAverageColorMode "#000000" "#ffffff" (PyVal.str "#999999")
      = PyVal.str (formatHexColor (midChannel 0 255) (midChannel 0 255) (midChannel 0 255)) :=
(c3_average_color "#000000" "#ffffff" (PyVal.str "#999999") 0 0 0 255 255 255
  (by decide) (by decide)).1

/-- Claim C4: gradient mode (spec-modelled) emits exactly one linear
gradient per edge; the gradient of edge number i has id edge-gradient-i,
gradientUnits userSpaceOnUse and exactly the two stops source color then
target color; the edge stroke is the URL reference to that id; and the
emitted ids are pairwise distinct. -/
theorem c4_gradient_mode (edgeColors : List (String × String)) :
    (applyGradientMode edgeColors).length = edgeColors.length ∧
    (∀ (i : ℕ) (sc tc : String), edgeColors[i]? = Option.some (sc, tc) →
      (applyGradientMode edgeColors)[i]?
        = Option.some (edgeGradient i sc tc, "url(#" ++ (edgeGradient i sc tc).id ++ ")")) ∧
    (∀ (i : ℕ) (sc tc : String),
      (edgeGradient i sc tc).stops = [sc, tc] ∧
      (edgeGradient i sc tc).gradientUnits = "userSpaceOnUse" ∧
      (edgeGradient i sc tc).id = gradientId i) ∧
    ((applyGradientMode edgeColors).map (fun p => p.1.id)).Nodup := by
refine ⟨by simp [applyGradientMode, List.enum_length], ?_, fun i sc tc => ⟨rfl, rfl, rfl⟩, ?_⟩
· intro i sc tc h
  unfold applyGradientMode
  rw [List.getElem?_map, List.getElem?_enum, h]
  rfl
· unfold applyGradientMode
  rw [List.map_map, show ((fun p => p.1.id) ∘
      (fun p : ℕ × (String × String) =>
        (edgeGradient p.1 p.2.1 p.2.2, "url(#" ++ gradientId p.1 ++ ")")))
      = (fun p : ℕ × (String × String) => gradientId p.1) from rfl,
    show (fun p : ℕ × (String × String) => gradientId p.1)
      = gradientId ∘ Prod.fst from rfl, ← List.map_map, List.enum_map_fst]
  exact (List.nodup_range _).map gradientId_injective

/-- Witness for C4 at a concrete one-edge color list. -/
theorem c4_gradient_mode_witness :
    (applyGradientMode [("#000000", "#00ff00")])[0]?
      = Option.some (edgeGradient 0 "#000000" "#00ff00",
          "url(#" ++ (edgeGradient 0 "#000000" "#00ff00").id ++ ")") :=
(c4_gradient_mode [("#000000", "#00ff00")]).2.1 0 "#000000" "#00ff00" rfl

/-- Claim C5, code-bug evidence: two successive set_text_style calls with
the same selector leave two separate style elements in the document, and
no element of the document carries the reserved role attribute
data-networksvg-role that the claim and the repository test
`test_set_text_style_merges_into_single_rule` expect on a single merged
block. -/
theorem c5_set_text_style_accumulates :
    ((setTextStyle (setTextStyle [] "text" [("font_size", Option.some "12px")]) "text"
        [("fill", Option.some "#333")]).filter (fun e => e.tag == "style")).length = 2 ∧
    ∀ e ∈ setTextStyle (setTextStyle [] "text" [("font_size", Option.some "12px")]) "text"
        [("fill", Option.some "#333")],
      lookupAttr e.attrs "data-networksvg-role" = Option.none := by
exact ⟨by decide, by decide⟩

/-- Claim C6: the fit-to-view transform of `_fit_positions`, on positions
spanning (1000,1000) to (2000,1500), a 200 by 200 canvas and uniform
margin 10, scales by min(180/1000, 180/500) = 0.18, centers the result,
and maps the inputs to (10,55) and (190,145); every fitted coordinate
lies within the interval from 10 to 190 on both axes. -/
theorem c6_fit_to_view_bounds :
    fitPositions true 200 200 (normalizeMargin (MarginSpec.scalar 10)) [(1000, 1000), (2000, 1500)]
      = Option.some [(10, 55), (190, 145)] ∧
    ∀ q ∈ [((10 : ℚ), (55 : ℚ)), (190, 145)],
      10 ≤ q.1 ∧ q.1 ≤ 190 ∧ 10 ≤ q.2 ∧ q.2 ≤ 190 := by
constructor
· norm_num [fitPositions, normalizeMargin, min_def, max_def]
· intro q hq
  fin_cases hq <;> norm_num

theorem lookupAttr_filter_keep (q : String × String → Bool) (k : String)
    {l : List (String × String)}
    (h : ∀ v, q (k, v) = true) : lookupAttr (l.filter q) k = lookupAttr l k := by
induction l with
| nil => rfl
| cons p t ih =>
  obtain ⟨a, b⟩ := p
  by_cases ha : a = k
  · subst ha
    simp [List.filter_cons, h b, lookupAttr]
  · by_cases hq : q (a, b) = true
    · simp [List.filter_cons, hq, lookupAttr, ha, ih]
    · have hq' : q (a, b) = false := by simpa using hq
      simp [List.filter_cons, hq', lookupAttr, ha, ih]

theorem lookupAttr_filter_drop (q : String × String → Bool) (k : String)
    {l : List (String × String)}
    (h : ∀ v, q (k, v) = false) : lookupAttr (l.filter q) k = Option.none := by
induction l with
| nil => rfl
| cons p t ih =>
  obtain ⟨a, b⟩ := p
  by_cases ha : a = k
  · subst ha
    simp [List.filter_cons, h b, ih]
  · by_cases hq : q (a, b) = true
    · simp [List.filter_cons, hq, lookupAttr, ha, ih]
    · have hq' : q (a, b) = false := by simpa using hq
      simp [List.filter_cons, hq', ih]

theorem lookupAttr_map_set {l : List (String × String)} {k v : String}
    (h : l.any (fun p => decide (p.1 = k)) = true) :
    lookupAttr (l.map (fun p => if p.1 = k then (p.1, v) else p)) k = Option.some v := by
induction l with
| nil => simp at h
| cons p t ih =>
  obtain ⟨a, b⟩ := p
  by_cases ha : a = k
  · subst ha
    simp [List.map_cons, lookupAttr]
  · have h3 : t.any (fun p => decide (p.1 = k)) = true := by
      simp [List.any_cons, ha] at h
      simpa using h
    simp [List.map_cons, ha, lookupAttr, ih h3]

theorem lookupAttr_append_new {l : List (String × String)} {k v : String}
    (h : l.any (fun p => decide (p.1 = k)) = false) :
    lookupAttr (l ++ [(k, v)]) k = Option.some v := by
induction l with
| nil => simp [lookupAttr]
| cons p t ih =>
  obtain ⟨a, b⟩ := p
  simp [List.any_cons] at h
  have ha : ¬ a = k := by simpa using h.1
  simp [List.cons_append, lookupAttr, ha]
  exact ih (by simpa using h.2)

theorem lookupAttr_map_set_other {l : List (String × String)} {k k' v : String} (hne : k' ≠ k) :
    lookupAttr (l.map (fun p => if p.1 = k then (p.1, v) else p)) k' = lookupAttr l k' := by
induction l with
| nil => rfl
| cons p t ih =>
  obtain ⟨a, b⟩ := p
  by_cases ha : a = k
  · subst ha
    have h2 : ¬ a = k' := fun hh => hne hh.symm
    simp [List.map_cons, lookupAttr, h2, ih]
  · by_cases hk : a = k'
    · subst hk
      simp [List.map_cons, ha, lookupAttr]
    · simp [List.map_cons, ha, lookupAttr, hk, ih]

theorem lookupAttr_append_other {l : List (String × String)} {k k' v : String} (hne : k' ≠ k) :
    lookupAttr (l ++ [(k, v)]) k' = lookupAttr l k' := by
induction l with
| nil =>
  have h1 : ¬ k = k' := fun hh => hne hh.symm
  simp [lookupAttr, h1]
| cons p t ih =>
  obtain ⟨a, b⟩ := p
  by_cases hk : a = k'
  · subst hk
    simp [List.cons_append, lookupAttr]
  · simp [List.cons_append, lookupAttr, hk, ih]

theorem getAttr_setAttr_self (e : El) (k v : String) :
    getAttr (setAttr e k v) k = Option.some v := by
unfold getAttr setAttr
by_cases h : e.attrs.any (fun p => decide (p.1 = k)) = true
· simp only [h, if_true]
  exact lookupAttr_map_set h
· have h' : e.attrs.any (fun p => decide (p.1 = k)) = false := by
    simpa only [Bool.not_eq_true] using h
  simp only [h', Bool.false_eq_true, if_false]
  exact lookupAttr_append_new h'

theorem getAttr_setAttr_other (e : El) (k k' v : String) (hne : k' ≠ k) :
    getAttr (setAttr e k v) k' = getAttr e k' := by
unfold getAttr setAttr
by_cases h : e.attrs.any (fun p => decide (p.1 = k)) = true
· simp only [h, if_true]
  exact lookupAttr_map_set_other hne
· have h' : e.attrs.any (fun p => decide (p.1 = k)) = false := by
    simpa only [Bool.not_eq_true] using h
  simp only [h', Bool.false_eq_true, if_false]
  exact lookupAttr_append_other hne

theorem getAttr_mkBg_fill (e : El) : getAttr (mkBg e) "fill" = Option.some "none" := by
unfold mkBg removeAttr getAttr
rw [lookupAttr_filter_keep (fun p => !(decide (p.1 = "paint-order"))) "fill" (fun _ => rfl)]
exact getAttr_setAttr_self e "fill" "none"

theorem getAttr_mkBg_stroke (e : El) : getAttr (mkBg e) "stroke" = getAttr e "stroke" := by
unfold mkBg removeAttr getAttr
rw [lookupAttr_filter_keep (fun p => !(decide (p.1 = "paint-order"))) "stroke" (fun _ => rfl)]
exact getAttr_setAttr_other e "fill" "stroke" "none" (by decide)

theorem getAttr_stripStroke_stroke (e : El) :
    getAttr (stripStroke e) "stroke" = Option.none := by
unfold stripStroke getAttr
rw [lookupAttr_filter_keep (fun p => !(decide (p.1 = "paint-order"))) "stroke" (fun _ => rfl)]
exact lookupAttr_filter_drop (fun p => !(strokeKey p.1)) "stroke" (fun _ => rfl)

theorem setAttr_tag (e : El) (k v : String) : (setAttr e k v).tag = e.tag := by
unfold setAttr
split
· rfl
· rfl

theorem mkBg_tag (e : El) : (mkBg e).tag = e.tag := by
show (setAttr e "fill" "none").tag = e.tag
exact setAttr_tag e "fill" "none"

theorem stripStroke_tag (e : El) : (stripStroke e).tag = e.tag := rfl

theorem stripStroke_no_stroke_attrs (e : El) :
    ∀ p ∈ (stripStroke e).attrs, strokeKey p.1 = false := by
intro p hp
unfold stripStroke at hp
simp only [List.mem_filter] at hp
simpa using hp.1.2

theorem textChildren_prepareLabelGroup (g : List El) :
    textChildren (prepareLabelGroup g) = prepareLabelGroup (textChildren g) := by
induction g with
| nil => rfl
| cons c t ih =>
  unfold prepareLabelGroup textChildren at ih ⊢
  rw [List.flatMap_cons, List.filter_append, List.filter_cons]
  by_cases hs : shouldSplit c = true
  · have htag : (c.tag == "text") = true := by
      have h0 := hs
      unfold shouldSplit at h0
      simp only [Bool.and_eq_true] at h0
      exact h0.1.1
    have hbg : ((mkBg c).tag == "text") = true := by
      rw [mkBg_tag]
      exact htag
    have hst : ((stripStroke c).tag == "text") = true := by
      rw [stripStroke_tag]
      exact htag
    simp [hs, htag, hbg, hst, List.filter_cons, List.flatMap_cons, ih]
  · have hs' : shouldSplit c = false := by simpa using hs
    by_cases htag : (c.tag == "text") = true
    · simp [hs', htag, List.filter_cons, List.flatMap_cons, ih]
    · have htag' : (c.tag == "text") = false := by simpa using htag
      simp [hs', htag', List.filter_cons, ih]

/-- Claim C7: in the Illustrator-safe transform, a label group whose text
children consist of exactly one stroked text node (stroke present and
non-empty, stroke-width not a parsed zero) ends with exactly two text
nodes: first the stroke-only duplicate (fill disabled, stroke kept),
immediately before the original, which is stripped of every
stroke-prefixed attribute. -/
theorem c7_illustrator_label_split (g : List El) (t : El) (s : String)
    (hg : textChildren g = [t])
    (hs : getAttr t "stroke" = Option.some s) (hsne : s ≠ "")
    (hw : strokeZero t = false) :
    textChildren (prepareLabelGroup g) = [mkBg t, stripStroke t] ∧
    getAttr (mkBg t) "fill" = Option.some "none" ∧
    getAttr (mkBg t) "stroke" = Option.some s ∧
    getAttr (stripStroke t) "stroke" = Option.none ∧
    (∀ p ∈ (stripStroke t).attrs, strokeKey p.1 = false) := by
have htag : (t.tag == "text") = true := by
  have ht : t ∈ textChildren g := by
    rw [hg]
    exact List.mem_singleton_self t
  exact (List.mem_filter.mp ht).2
have hsplit : shouldSplit t = true := by
  unfold shouldSplit
  rw [hs, hw]
  simp [htag, hsne]
refine ⟨?_, getAttr_mkBg_fill t, ?_, getAttr_stripStroke_stroke t,
  stripStroke_no_stroke_attrs t⟩
· rw [textChildren_prepareLabelGroup, hg]
  unfold prepareLabelGroup
  simp [hsplit]
· rw [getAttr_mkBg_stroke, hs]

/-- Witness for C7 on a concrete label group holding one stroked text
node shaped like the ones `_create_label_element` emits. -/
theorem c7_illustrator_label_split_witness :
    textChildren (prepareLabelGroup [sampleLabelText])
      = [mkBg sampleLabelText, stripStroke sampleLabelText] :=
(c7_illustrator_label_split [sampleLabelText] sampleLabelText "#0c2b42"
  (by decide) (by decide) (by decide) (by decide)).1

theorem optLe_total (a b : Option ℤ) : (optLe a b || optLe b a) = true := by
cases a <;> cases b <;> simp [optLe, Int.le_total]

theorem optLe_trans (a b c : Option ℤ) (h1 : optLe a b = true) (h2 : optLe b c = true) :
    optLe a c = true := by
cases a <;> cases b <;> cases c <;> simp_all [optLe]
all_goals omega

theorem layerLe_total {α : Type} (key : α → Option ℤ) (rev : Bool) (a b : α) :
    (layerLe key rev a b || layerLe key rev b a) = true := by
cases rev
· exact optLe_total (key a) (key b)
· exact optLe_total (key b) (key a)

theorem layerLe_trans {α : Type} (key : α → Option ℤ) (rev : Bool) (a b c : α)
    (h1 : layerLe key rev a b = true) (h2 : layerLe key rev b c = true) :
    layerLe key rev a c = true := by
cases rev
· exact optLe_trans (key a) (key b) (key c) h1 h2
· exact optLe_trans (key c) (key b) (key a) h2 h1

theorem cmpLe_total {α : Type} (cmp : α → α → ℤ) (rev : Bool)
    (htot : ∀ a b, cmp a b ≤ 0 ∨ cmp b a ≤ 0) (a b : α) :
    (cmpLe cmp rev a b || cmpLe cmp rev b a) = true := by
cases rev
· simpa [cmpLe] using htot a b
· simpa [cmpLe] using htot b a

theorem cmpLe_trans {α : Type} (cmp : α → α → ℤ) (rev : Bool)
    (htrans : ∀ a b c, cmp a b ≤ 0 → cmp b c ≤ 0 → cmp a c ≤ 0) (a b c : α)
    (h1 : cmpLe cmp rev a b = true) (h2 : cmpLe cmp rev b c = true) :
    cmpLe cmp rev a c = true := by
cases rev <;> simp_all [cmpLe]
· exact htrans a b c h1 h2
· exact htrans c b a h2 h1

/-- Claim C8: layer re-sorting is idempotent and length-preserving for
the key-based modes (named attribute and key function, both of which
produce an optional key value with missing values grouped last) and for a
comparator inducing a total preorder; the sorted selection is moreover a
permutation of the original, so no element is dropped even when its key
is absent. -/
theorem c8_sort_idempotent_length {α : Type} (l : List α) (key : α → Option ℤ)
    (reverse : Bool) (cmp : α → α → ℤ)
    (htot : ∀ a b, cmp a b ≤ 0 ∨ cmp b a ≤ 0)
    (htrans : ∀ a b c, cmp a b ≤ 0 → cmp b c ≤ 0 → cmp a c ≤ 0) :
    sortLayer (sortLayer l key reverse) key reverse = sortLayer l key reverse ∧
    (sortLayer l key reverse).length = l.length ∧
    (sortLayer l key reverse).Perm l ∧
    sortLayerCmp (sortLayerCmp l cmp reverse) cmp reverse = sortLayerCmp l cmp reverse ∧
    (sortLayerCmp l cmp reverse).length = l.length ∧
    (sortLayerCmp l cmp reverse).Perm l := by
refine ⟨?_, List.length_mergeSort l, List.mergeSort_perm l _, ?_,
  List.length_mergeSort l, List.mergeSort_perm l _⟩
· exact List.mergeSort_of_sorted
    (List.sorted_mergeSort (layerLe_trans key reverse) (layerLe_total key reverse) l)
· exact List.mergeSort_of_sorted
    (List.sorted_mergeSort (cmpLe_trans cmp reverse htrans) (cmpLe_total cmp reverse htot) l)

/-- Witness for C8 on a concrete integer layer sorted by the identity
key. -/
theorem c8_sort_idempotent_length_witness :
    sortLayer (sortLayer [(5 : ℤ), 1, 3, 1] Option.some false) Option.some false
      = sortLayer [(5 : ℤ), 1, 3, 1] Option.some false :=
(c8_sort_idempotent_length [(5 : ℤ), 1, 3, 1] Option.some false (fun _ _ => 0)
  (fun _ _ => Or.inl (le_refl 0)) (fun _ _ _ _ _ => le_refl 0)).1

theorem createLabelElement_eq (g : NetGraph) (i : ℕ) :
    createLabelElement g i = if specShowsLabel g i then Option.some i else Option.none := by
unfold createLabelElement specShowsLabel
by_cases h1 : attrLookup (g.vattr i) ["ShowLabel", "show_label"]
    = Option.some (PyVal.bool false)
· simp [h1]
· by_cases h2 : truthy (attrLookup (g.vattr i) ["Label", "label", "name"]) = true
  · simp [h1, h2]
  · have h2' : truthy (attrLookup (g.vattr i) ["Label", "label", "name"]) = false := by
      simpa using h2
    simp [h1, h2']

theorem length_filterMap_labels (g : NetGraph) :
    ∀ l : List ℕ, (l.filterMap (createLabelElement g)).length
      = (l.filter (fun i => specShowsLabel g i)).length := by
intro l
induction l with
| nil => rfl
| cons a tl ih =>
  rw [List.filterMap_cons, List.filter_cons, createLabelElement_eq]
  by_cases h : specShowsLabel g a = true
  · simp [h, ih]
  · have h' : specShowsLabel g a = false := by simpa using h
    simp [h', ih]

/-- Claim C9: after construction the edge selection has one element per
graph edge and the node selection one element per vertex, while the label
selection has exactly one element per vertex whose label text attribute
is present and non-empty and whose show-label attribute, if present, is
not explicitly the boolean False. -/
theorem c9_layer_counts (g : NetGraph) :
    (buildEdges g).length = g.edges.length ∧
    (buildNodes g).length = g.vcount ∧
    (buildLabels g).length
      = ((List.range g.vcount).filter (fun i => specShowsLabel g i)).length := by
refine ⟨by simp [buildEdges], by simp [buildNodes], ?_⟩
unfold buildLabels
exact length_filterMap_labels g (List.range g.vcount)

/-- Claim C10: calling an ordinal scale with an empty range on an unseen
input raises the empty-range error, yet the input has already been
appended to the domain, so the observable domain differs from the one
before the call: the operation is not atomic. -/
theorem c10_ordinal_not_atomic (s : OrdinalScale) (v : ℤ)
    (hv : v ∉ s.domain) (hr : s.range = []) :
    (ordinalCall s v).2 = Except.error "OrdinalScale requires a non-empty range list" ∧
    (ordinalCall s v).1.domain = s.domain ++ [v] ∧
    (ordinalCall s v).1.domain ≠ s.domain := by
unfold ordinalCall
rw [if_neg hv]
have hr1 : ({ s with domain := s.domain ++ [v] } : OrdinalScale).range = [] := hr
rw [if_pos hr1]
refine ⟨rfl, rfl, ?_⟩
intro h
have hlen := congrArg List.length h
simp at hlen

/-- Witness for C10 on a concrete scale with domain [1] and empty
range, called at the unseen input 2. -/
theorem c10_ordinal_not_atomic_witness :
    (ordinalCall { domain := [1], range := [] } 2).2
      = Except.error "OrdinalScale requires a non-empty range list" :=
(c10_ordinal_not_atomic { domain := [1], range := [] } 2 (by decide) rfl).1

end D3SvgNetwork
